import Mathlib

/-!
Shallow embedding of the `small-rngs` generator engines (src/src/xsm.rs,
src/src/pcg.rs, src/src/msws.rs) over `Nat`, with machine-word wraparound
written as explicit `% 2^w`.  Each engine's `next_u32` / `next_u64` returns
the output word together with the successor state.
-/

namespace SmallRngs

/-- Modelled from the spec: the seed decoder `le::read_uXX_into` lives in the
`rand_core` dependency, not under src/.  Spec §3: a seed is "decoded as an
ordered array of little-endian fixed-width words"; `leWord bs` is the value of
the byte list `bs` read little-endian (first byte is least significant). -/
def leWord : List Nat → Nat
  | [] => 0
  | b :: bs => b + 256 * leWord bs

/-- Rotate a 32-bit value `x` right by `r` bits (Rust `u32::rotate_right`:
the rotate amount is taken mod 32). -/
def rotr32 (x r : Nat) : Nat :=
  (x >>> (r % 32)) ||| ((x <<< (32 - r % 32)) % 2 ^ 32)

/-- Rotate a 32-bit value `x` left by `r` bits (Rust `u32::rotate_left`). -/
def rotl32 (x r : Nat) : Nat :=
  ((x <<< (r % 32)) % 2 ^ 32) ||| (x >>> (32 - r % 32))

/-- Rotate a 64-bit value `x` right by `r` bits (Rust `u64::rotate_right`). -/
def rotr64 (x r : Nat) : Nat :=
  (x >>> (r % 64)) ||| ((x <<< (64 - r % 64)) % 2 ^ 64)

/-- Rotate a 64-bit value `x` left by `r` bits (Rust `u64::rotate_left`). -/
def rotl64 (x r : Nat) : Nat :=
  ((x <<< (r % 64)) % 2 ^ 64) ||| (x >>> (64 - r % 64))

/-- Modelled from the spec: `rand_core::impls::next_u64_via_u32` is not under
src/.  Spec §4.3/§8: the 64-bit output of a 32-bit-word engine is "two
sequential 32-bit output calls packed low-word-then-high-word": the first call
gives the low 32 bits, the second the high 32 bits. -/
def next_u64_via_u32 {σ : Type} (next : σ → Nat × σ) (s : σ) : Nat × σ :=
  let x := next s
  let y := next x.2
  ((y.1 <<< 32) ||| x.1, y.2)

/-! ## XSM32 (src/src/xsm.rs, `Xsm32Rng`) -/

structure Xsm32Rng where
  lcg_low : Nat
  lcg_high : Nat
  lcg_adder : Nat
  history : Nat
deriving DecidableEq

/-- `Xsm32Rng::next_u32` (src/src/xsm.rs lines 51-67). -/
def Xsm32Rng.next_u32 (g : Xsm32Rng) : Nat × Xsm32Rng :=
  let K := 0x6595a395
  let rv0 := (g.history * K) % 2 ^ 32
  let tmp0 := (g.lcg_high + rotl32 (g.lcg_high ^^^ g.lcg_low) 11) % 2 ^ 32
  let tmp := (tmp0 * K) % 2 ^ 32
  let lcg_low1 := (g.lcg_low + g.lcg_adder) % 2 ^ 32
  let old_lcg_low := (g.lcg_low + (if lcg_low1 < g.lcg_adder then 1 else 0)) % 2 ^ 32
  let lcg_high1 := (g.lcg_high + old_lcg_low) % 2 ^ 32
  let rv1 := rv0 ^^^ (rv0 >>> 16)
  let history1 := tmp ^^^ (tmp >>> 16)
  ((rv1 + history1) % 2 ^ 32,
   { lcg_low := lcg_low1, lcg_high := lcg_high1,
     lcg_adder := g.lcg_adder, history := history1 })

/-- `Xsm32Rng::from_seed` (src/src/xsm.rs lines 35-46): decode three
little-endian 32-bit words, force the adder odd, then run one discarded
`next_u32` step. -/
def Xsm32Rng.from_seed (seed : List Nat) : Xsm32Rng :=
  let s0 := leWord (seed.take 4)
  let s1 := leWord ((seed.drop 4).take 4)
  let s2 := leWord ((seed.drop 8).take 4)
  (Xsm32Rng.next_u32
    { lcg_low := s0, lcg_high := s1, lcg_adder := s2 ||| 1, history := 0 }).2

/-- `Xsm32Rng::next_u64` (src/src/xsm.rs lines 69-72):
`impls::next_u64_via_u32(self)`. -/
def Xsm32Rng.next_u64 (g : Xsm32Rng) : Nat × Xsm32Rng :=
  next_u64_via_u32 Xsm32Rng.next_u32 g

/-! ## XSM64 (src/src/xsm.rs, `Xsm64Rng`) -/

structure Xsm64Rng where
  lcg_low : Nat
  lcg_high : Nat
  lcg_adder : Nat
  history : Nat
deriving DecidableEq

/-- `Xsm64Rng::next_u64` (src/src/xsm.rs lines 127-141), transcribed exactly:
`history` is multiplied by K first; `tmp` is built from the lcg pair; then
`lcg_high` is advanced by `old + (lcg_low < lcg_adder)`.  Note the source
contains no assignment to `lcg_low` in this function. -/
def Xsm64Rng.next_u64 (g : Xsm64Rng) : Nat × Xsm64Rng :=
  let K := 0xa3ec647659359acd
  let history1 := (g.history * K) % 2 ^ 64
  let tmp0 := (g.lcg_high + rotl64 (g.lcg_high ^^^ g.lcg_low) 19) % 2 ^ 64
  let tmp := (tmp0 * K) % 2 ^ 64
  let old := g.lcg_low
  let lcg_high1 :=
    (g.lcg_high + ((old + (if g.lcg_low < g.lcg_adder then 1 else 0)) % 2 ^ 64)) % 2 ^ 64
  let old2 := history1 ^^^ (history1 >>> 32)
  let history2 := tmp ^^^ (tmp >>> 32)
  ((tmp + old2) % 2 ^ 64,
   { lcg_low := g.lcg_low, lcg_high := lcg_high1,
     lcg_adder := g.lcg_adder, history := history2 })

/-- `Xsm64Rng::from_seed` (src/src/xsm.rs lines 106-117). -/
def Xsm64Rng.from_seed (seed : List Nat) : Xsm64Rng :=
  let s0 := leWord (seed.take 8)
  let s1 := leWord ((seed.drop 8).take 8)
  let s2 := leWord ((seed.drop 16).take 8)
  (Xsm64Rng.next_u64
    { lcg_low := s0, lcg_high := s1, lcg_adder := s2 ||| 1, history := 0 }).2

/-- `Xsm64Rng::next_u32` (src/src/xsm.rs lines 121-124): `self.next_u64() as u32`. -/
def Xsm64Rng.next_u32 (g : Xsm64Rng) : Nat × Xsm64Rng :=
  let r := Xsm64Rng.next_u64 g
  (r.1 % 2 ^ 32, r.2)

/-! ## PCG XSH 64/32 (LCG) (src/src/pcg.rs, `PcgXsh64LcgRng`) -/

structure PcgXsh64LcgRng where
  state : Nat
  increment : Nat
deriving DecidableEq

/-- `PcgXsh64LcgRng::from_seed` (src/src/pcg.rs lines 27-37): decode two
little-endian 64-bit words, force the increment odd, then run one LCG advance
`state = state * 6364136223846793005 + increment` before the first output. -/
def PcgXsh64LcgRng.from_seed (seed : List Nat) : PcgXsh64LcgRng :=
  let s0 := leWord (seed.take 8)
  let s1 := leWord ((seed.drop 8).take 8)
  let increment := s1 ||| 1
  { state := (s0 * 6364136223846793005 + increment) % 2 ^ 64,
    increment := increment }

/-- `PcgXsh64LcgRng::next_u32` (src/src/pcg.rs lines 42-60): advance the LCG,
then XSH-RR on the pre-advance state with XSHIFT = 18, SPARE = 27, ROTATE = 59. -/
def PcgXsh64LcgRng.next_u32 (g : PcgXsh64LcgRng) : Nat × PcgXsh64LcgRng :=
  let state := g.state
  let state1 := (state * 6364136223846793005 + g.increment) % 2 ^ 64
  let xsh := (((state >>> 18) ^^^ state) >>> 27) % 2 ^ 32
  (rotr32 xsh ((state >>> 59) % 2 ^ 32), { state := state1, increment := g.increment })

/-- `PcgXsh64LcgRng::next_u64` (src/src/pcg.rs lines 62-65):
`impls::next_u64_via_u32(self)`. -/
def PcgXsh64LcgRng.next_u64 (g : PcgXsh64LcgRng) : Nat × PcgXsh64LcgRng :=
  next_u64_via_u32 PcgXsh64LcgRng.next_u32 g

/-! ## PCG XSL 64/32 (LCG) (src/src/pcg.rs, `PcgXsl64LcgRng`) -/

structure PcgXsl64LcgRng where
  state : Nat
  increment : Nat
deriving DecidableEq

/-- `PcgXsl64LcgRng::from_seed` (src/src/pcg.rs lines 91-101): identical to the
XSH variant's seeding. -/
def PcgXsl64LcgRng.from_seed (seed : List Nat) : PcgXsl64LcgRng :=
  let s0 := leWord (seed.take 8)
  let s1 := leWord ((seed.drop 8).take 8)
  let increment := s1 ||| 1
  { state := (s0 * 6364136223846793005 + increment) % 2 ^ 64,
    increment := increment }

/-- `PcgXsl64LcgRng::next_u32` (src/src/pcg.rs lines 106-123): advance the LCG,
then XSL-RR with XSHIFT = 32, ROTATE = 59. -/
def PcgXsl64LcgRng.next_u32 (g : PcgXsl64LcgRng) : Nat × PcgXsl64LcgRng :=
  let state := g.state
  let state1 := (state * 6364136223846793005 + g.increment) % 2 ^ 64
  let xsl := ((state >>> 32) % 2 ^ 32) ^^^ (state % 2 ^ 32)
  (rotr32 xsl ((state >>> 59) % 2 ^ 32), { state := state1, increment := g.increment })

/-- `PcgXsl64LcgRng::next_u64` (src/src/pcg.rs lines 125-128):
`impls::next_u64_via_u32(self)`. -/
def PcgXsl64LcgRng.next_u64 (g : PcgXsl64LcgRng) : Nat × PcgXsl64LcgRng :=
  next_u64_via_u32 PcgXsl64LcgRng.next_u32 g

/-! ## PCG XSL 128/64 (MCG) (src/src/pcg.rs, `PcgXsl128McgRng`) -/

structure PcgXsl128McgRng where
  state : Nat
deriving DecidableEq

/-- The 128-bit MCG multiplier of src/src/pcg.rs line 150:
`2549297995355413924u128 << 64 | 4865540595714422341`. -/
def MULTIPLIER : Nat := (2549297995355413924 <<< 64) ||| 4865540595714422341

/-- `PcgXsl128McgRng::from_seed` (src/src/pcg.rs lines 155-164): the two seed
words become the high/low halves of the 128-bit state, then one multiply. -/
def PcgXsl128McgRng.from_seed (seed : List Nat) : PcgXsl128McgRng :=
  let s0 := leWord (seed.take 8)
  let s1 := leWord ((seed.drop 8).take 8)
  { state := (((s0 <<< 64) ||| s1) * MULTIPLIER) % 2 ^ 128 }

/-- `PcgXsl128McgRng::next_u64` (src/src/pcg.rs lines 174-190): advance the MCG,
then XSL-RR with XSHIFT = 64, ROTATE = 122. -/
def PcgXsl128McgRng.next_u64 (g : PcgXsl128McgRng) : Nat × PcgXsl128McgRng :=
  let state := g.state
  let state1 := (state * MULTIPLIER) % 2 ^ 128
  let xsl := ((state >>> 64) % 2 ^ 64) ^^^ (state % 2 ^ 64)
  (rotr64 xsl ((state >>> 122) % 2 ^ 32), { state := state1 })

/-- `PcgXsl128McgRng::next_u32` (src/src/pcg.rs lines 169-171):
`self.next_u64() as u32`. -/
def PcgXsl128McgRng.next_u32 (g : PcgXsl128McgRng) : Nat × PcgXsl128McgRng :=
  let r := PcgXsl128McgRng.next_u64 g
  (r.1 % 2 ^ 32, r.2)

/-! ## MWP (src/src/pcg.rs, `MwpRng`) -/

structure MwpRng where
  m : Nat
  w : Nat
deriving DecidableEq

/-- `MwpRng::from_seed` (src/src/pcg.rs lines 212-216): `m` is the first seed
word forced odd, `w` the second seed word. -/
def MwpRng.from_seed (seed : List Nat) : MwpRng :=
  let s0 := leWord (seed.take 8)
  let s1 := leWord ((seed.drop 8).take 8)
  { m := s0 ||| 1, w := s1 }

/-- `MwpRng::next_u32` (src/src/pcg.rs lines 221-237): advance `m` (MCG) and
`w` (Weyl), combine by XOR, then XSH-RR as in the XSH 64/32 variant. -/
def MwpRng.next_u32 (g : MwpRng) : Nat × MwpRng :=
  let m := (g.m * 6364136223846793005) % 2 ^ 64
  let w := (g.w + 1442695040888963407) % 2 ^ 64
  let state := m ^^^ w
  let xsh := (((state >>> 18) ^^^ state) >>> 27) % 2 ^ 32
  (rotr32 xsh ((state >>> 59) % 2 ^ 32), { m := m, w := w })

/-- `MwpRng::next_u64` (src/src/pcg.rs lines 240-257): advance `m` and `w` the
same way, then RXS-M-XS with `rshift = (state >> (64-5)) & (64-1)`, xorshift by
`5 + rshift`, multiply, and a final fixed xorshift by `(2*64+2)/3` bits. -/
def MwpRng.next_u64 (g : MwpRng) : Nat × MwpRng :=
  let m := (g.m * 6364136223846793005) % 2 ^ 64
  let w := (g.w + 1442695040888963407) % 2 ^ 64
  let state := m ^^^ w
  let rshift := (state >>> (64 - 5)) &&& (64 - 1)
  let state1 := state ^^^ (state >>> (5 + rshift))
  let state2 := (state1 * 6364136223846793005) % 2 ^ 64
  (state2 ^^^ (state2 >>> ((2 * 64 + 2) / 3)), { m := m, w := w })

/-! ## MSWS (src/src/msws.rs, `MswsRng`) -/

structure MswsRng where
  x : Nat
  w : Nat
  s : Nat
deriving DecidableEq

/-- `MswsRng::from_seed` (src/src/msws.rs lines 33-41): the first seed word is
forced odd to form the stream constant; construction panics (here: `none`) when
its high 32 bits are zero; otherwise `x` is the second seed word and `w = 0`. -/
def MswsRng.from_seed (seed : List Nat) : Option MswsRng :=
  let s0 := leWord (seed.take 8)
  let s1 := leWord ((seed.drop 8).take 8)
  let stream := s0 ||| 1
  if stream &&& 0xffffffff00000000 = 0 then none
  else some { x := s1, w := 0, s := stream }

/-- `MswsRng::next_u64` (src/src/msws.rs lines 62-67): square `x`, advance the
Weyl sequence, add it into `x`, and output `x` rotated left by 32 bits. -/
def MswsRng.next_u64 (g : MswsRng) : Nat × MswsRng :=
  let x1 := (g.x * g.x) % 2 ^ 64
  let w1 := (g.w + g.s) % 2 ^ 64
  let x2 := (x1 + w1) % 2 ^ 64
  (rotl64 x2 32, { x := x2, w := w1, s := g.s })

/-- `MswsRng::next_u32` (src/src/msws.rs lines 57-59): `self.next_u64() as u32`. -/
def MswsRng.next_u32 (g : MswsRng) : Nat × MswsRng :=
  let r := MswsRng.next_u64 g
  (r.1 % 2 ^ 32, r.2)

/-! ## Byte serialization (spec §4.1) -/

/-- The little-endian byte encoding of `v`, truncated to its `n` leading
(least significant first) bytes. -/
def leBytes (v : Nat) : Nat → List Nat
  | 0 => []
  | n + 1 => v % 256 :: leBytes (v / 256) n

/-- Modelled from the spec: the byte-serialization helper
(`rand_core::impls::fill_bytes_via_next`) is not under src/.  Spec §4.1: fill a
buffer of `n` bytes by generating 64-bit words in sequence and writing each
word's little-endian bytes; if `n` is not a multiple of 8, write only the
leading bytes needed from the final generated word. -/
def fillBytesVia64 {σ : Type} (next : σ → Nat × σ) (s : σ) (n : Nat) : List Nat × σ :=
  if n = 0 then ([], s)
  else
    let vs := next s
    if 8 ≤ n then
      let rest := fillBytesVia64 next vs.2 (n - 8)
      (leBytes vs.1 8 ++ rest.1, rest.2)
    else (leBytes vs.1 n, vs.2)
termination_by n
decreasing_by omega

/-- The MWP 64-bit step exactly as claim C2 words it, with the final fixed
xorshift distance `d` left as a parameter (the claim states 42): advance `m`
multiplicatively and `w` additively, xor them, compute the data-dependent
shift from the top 5 bits of the combined state, xorshift by `5 + shift`,
multiply, then return `state ^ (state >> d)`.  To be compared with
`MwpRng.next_u64`, which is transcribed from the code. -/
def mwpNext64Stated (d : Nat) (g : MwpRng) : Nat × MwpRng :=
  let m := (g.m * 6364136223846793005) % 2 ^ 64
  let w := (g.w + 1442695040888963407) % 2 ^ 64
  let state := m ^^^ w
  let shift := state >>> 59
  let state1 := state ^^^ (state >>> (5 + shift))
  let state2 := (state1 * 6364136223846793005) % 2 ^ 64
  (state2 ^^^ (state2 >>> d), { m := m, w := w })

/-- The RngCore output calls available on an `MwpRng`. -/
inductive MwpCall where
  | width32
  | width64

/-- The successor state of one output call on an `MwpRng`. -/
def MwpRng.applyCall (c : MwpCall) (g : MwpRng) : MwpRng :=
  match c with
  | .width32 => (MwpRng.next_u32 g).2
  | .width64 => (MwpRng.next_u64 g).2

/-- The state reached after a finite sequence of output calls. -/
def MwpRng.runCalls (cs : List MwpCall) (g : MwpRng) : MwpRng :=
  cs.foldl (fun g c => MwpRng.applyCall c g) g

/-! ## Helper lemmas -/

theorem leBytes_take (v : Nat) :
    ∀ k n, k ≤ n → leBytes v k = List.take k (leBytes v n) := by
  intro k
  induction k generalizing v with
  | zero => intro n _; simp [leBytes]
  | succ k ih =>
    intro n hn
    cases n with
    | zero => omega
    | succ n => simp [leBytes, ih (v / 256) n (by omega)]

theorem shiftMask_of_lt (s : Nat) (h : s < 2 ^ 64) :
    (s >>> (64 - 5)) &&& (64 - 1) = s >>> 59 := by
  have h59 : s >>> 59 < 2 ^ 6 := by
    rw [Nat.shiftRight_eq_div_pow]
    exact Nat.div_lt_of_lt_mul (by calc s < 2 ^ 64 := h
                                       _ ≤ 2 ^ 59 * 2 ^ 6 := by norm_num)
  calc (s >>> (64 - 5)) &&& (64 - 1) = (s >>> 59) &&& (2 ^ 6 - 1) := by norm_num
    _ = (s >>> 59) % 2 ^ 6 := Nat.and_pow_two_sub_one_eq_mod _ 6
    _ = s >>> 59 := Nat.mod_eq_of_lt h59

theorem mwp_m_odd_step (c : MwpCall) (g : MwpRng) (h : g.m % 2 = 1) :
    (MwpRng.applyCall c g).m % 2 = 1 := by
  have key : ((g.m * 6364136223846793005) % 2 ^ 64) % 2 = 1 := by
    rw [Nat.mod_mod_of_dvd _ (by norm_num), Nat.mul_mod, h]
  cases c <;> simpa [MwpRng.applyCall, MwpRng.next_u32, MwpRng.next_u64] using key

/-! ## Claims -/

/-- Claim C3: one `Xsm32Rng::next_u32` call updates the LCG pair exactly as:
`lcg_low` becomes `lcg_low + lcg_adder` wrapping mod 2^32, a carry bit is
detected from that addition, and `lcg_high` is advanced by the old `lcg_low`
with that carry propagated into it, wrapping mod 2^32. -/
theorem xsm32_next_u32_lcg_advance (g : Xsm32Rng)
    (h1 : g.lcg_low < 2 ^ 32) (h2 : g.lcg_adder < 2 ^ 32) :
    ((Xsm32Rng.next_u32 g).2.lcg_low = (g.lcg_low + g.lcg_adder) % 2 ^ 32) ∧
    ((Xsm32Rng.next_u32 g).2.lcg_high =
      (g.lcg_high + g.lcg_low +
        (if 2 ^ 32 ≤ g.lcg_low + g.lcg_adder then 1 else 0)) % 2 ^ 32) := by
  refine ⟨rfl, ?_⟩
  simp only [Xsm32Rng.next_u32]
  split_ifs <;> omega

theorem xsm32_next_u32_lcg_advance_witness :
    (5 : Nat) < 2 ^ 32 ∧ (7 : Nat) < 2 ^ 32 ∧
    (((Xsm32Rng.next_u32 ⟨5, 11, 7, 9⟩).2.lcg_low = (5 + 7) % 2 ^ 32) ∧
     ((Xsm32Rng.next_u32 ⟨5, 11, 7, 9⟩).2.lcg_high =
       (11 + 5 + (if 2 ^ 32 ≤ 5 + 7 then 1 else 0)) % 2 ^ 32)) :=
  ⟨by decide, by decide,
   xsm32_next_u32_lcg_advance ⟨5, 11, 7, 9⟩ (by decide) (by decide)⟩

/-- Claim C1 (refuted by the code): `Xsm64Rng::next_u64` is claimed to advance
the LCG as XSM32 does at double width, incrementing `lcg_low` by `lcg_adder`.
In the source the assignment to `lcg_low` is missing: this theorem shows that
`next_u64` leaves `lcg_low` unchanged on every state, so in particular on the
state `(lcg_low, lcg_high, lcg_adder, history) = (0, 0, 1, 0)` the claimed new
`lcg_low` value `(0 + 1) % 2^64 = 1` is never produced. -/
theorem xsm64_next_u64_lcg_low_unchanged (g : Xsm64Rng) :
    (Xsm64Rng.next_u64 g).2.lcg_low = g.lcg_low := rfl

/-- Claim C2 counterexample: on the state `(m, w) = (1, 0)` the code's
`MwpRng::next_u64` does not agree with the claim's formula, whose final fixed
xorshift distance is 42. -/
theorem mwp_next_u64_42_counterexample :
    MwpRng.next_u64 ⟨1, 0⟩ ≠ mwpNext64Stated 42 ⟨1, 0⟩ := by decide

/-- Claim C2 (amended): one `MwpRng::next_u64` call advances `m` by multiplying
with 6364136223846793005 (wrapping) and `w` by adding 1442695040888963407
(wrapping), sets `state = m ^^^ w`, takes the right-shift amount from the top
5 bits of `state`, applies `state ^^^ (state >>> (5 + shift))`, multiplies by
the same constant, and returns `state ^^^ (state >>> 43)` — the code's final
fixed xorshift distance `(2*64+2)/3` is 43, not 42. -/
theorem mwp_next_u64_rxs_m_xs (g : MwpRng) :
    MwpRng.next_u64 g = mwpNext64Stated 43 g := by
  have hstate :
      ((g.m * 6364136223846793005) % 2 ^ 64) ^^^
        ((g.w + 1442695040888963407) % 2 ^ 64) < 2 ^ 64 :=
    Nat.xor_lt_two_pow (Nat.mod_lt _ (by norm_num)) (Nat.mod_lt _ (by norm_num))
  simp only [MwpRng.next_u64, mwpNext64Stated, shiftMask_of_lt _ hstate]

/-- Claim C4: for every 16-byte seed, `MswsRng::from_seed` fails exactly when
`(first_seed_word ||| 1) &&& 0xffffffff00000000 = 0`, where the first seed word
is the first little-endian 64-bit word of the seed; on success the engine has
`s = first_seed_word ||| 1`, `w = 0`, and `x` equal to the second seed word. -/
theorem msws_from_seed_validity (seed : List Nat) (h : seed.length = 16) :
    (MswsRng.from_seed seed = none ↔
      (leWord (seed.take 8) ||| 1) &&& 0xffffffff00000000 = 0) ∧
    ∀ g : MswsRng, MswsRng.from_seed seed = some g →
      g.s = (leWord (seed.take 8) ||| 1) ∧ g.w = 0 ∧
      g.x = leWord ((seed.drop 8).take 8) := by
  simp only [MswsRng.from_seed]
  split_ifs with hc
  · exact ⟨iff_of_true rfl hc, by intro g hg; cases hg⟩
  · refine ⟨iff_of_false (by simp) hc, ?_⟩
    intro g hg
    cases hg
    exact ⟨rfl, rfl, rfl⟩

theorem msws_from_seed_validity_witness :
    ([0, 0, 0, 0, 0, 0, 0, 0, 0, 0, 0, 0, 0, 0, 0, 0] : List Nat).length = 16 ∧
    ((MswsRng.from_seed [0, 0, 0, 0, 0, 0, 0, 0, 0, 0, 0, 0, 0, 0, 0, 0] = none ↔
       (leWord (([0, 0, 0, 0, 0, 0, 0, 0, 0, 0, 0, 0, 0, 0, 0, 0] : List Nat).take 8) ||| 1) &&&
         0xffffffff00000000 = 0) ∧
     ∀ g : MswsRng,
       MswsRng.from_seed [0, 0, 0, 0, 0, 0, 0, 0, 0, 0, 0, 0, 0, 0, 0, 0] = some g →
       g.s = (leWord (([0, 0, 0, 0, 0, 0, 0, 0, 0, 0, 0, 0, 0, 0, 0, 0] : List Nat).take 8) ||| 1) ∧
       g.w = 0 ∧
       g.x = leWord ((([0, 0, 0, 0, 0, 0, 0, 0, 0, 0, 0, 0, 0, 0, 0, 0] : List Nat).drop 8).take 8)) :=
  ⟨by decide, msws_from_seed_validity _ (by decide)⟩

/-- Claim C5: for the PCG XSH 64/32 and XSL 64/32 engines, one `next_u64` call
returns the same value and the same successor state as two sequential
`next_u32` calls packed low-word-then-high-word; for the PCG XSL 128/64 and
MSWS engines, one `next_u32` call returns the low 32 bits of one `next_u64`
call, with the same successor state. -/
theorem width_consistency_pcg_msws :
    (∀ g : PcgXsh64LcgRng, PcgXsh64LcgRng.next_u64 g =
      (((PcgXsh64LcgRng.next_u32 (PcgXsh64LcgRng.next_u32 g).2).1 <<< 32) |||
         (PcgXsh64LcgRng.next_u32 g).1,
       (PcgXsh64LcgRng.next_u32 (PcgXsh64LcgRng.next_u32 g).2).2)) ∧
    (∀ g : PcgXsl64LcgRng, PcgXsl64LcgRng.next_u64 g =
      (((PcgXsl64LcgRng.next_u32 (PcgXsl64LcgRng.next_u32 g).2).1 <<< 32) |||
         (PcgXsl64LcgRng.next_u32 g).1,
       (PcgXsl64LcgRng.next_u32 (PcgXsl64LcgRng.next_u32 g).2).2)) ∧
    (∀ g : PcgXsl128McgRng, PcgXsl128McgRng.next_u32 g =
      ((PcgXsl128McgRng.next_u64 g).1 % 2 ^ 32, (PcgXsl128McgRng.next_u64 g).2)) ∧
    (∀ g : MswsRng, MswsRng.next_u32 g =
      ((MswsRng.next_u64 g).1 % 2 ^ 32, (MswsRng.next_u64 g).2)) :=
  ⟨fun _ => rfl, fun _ => rfl, fun _ => rfl, fun _ => rfl⟩

/-- Claim C6: for every seed byte array, regardless of the parity of any seed
word, the `increment` field produced by the two PCG LCG seeders and the `m`
field produced by the MWP seeder have their low bit set to 1. -/
theorem from_seed_forces_odd (seed : List Nat) :
    (PcgXsh64LcgRng.from_seed seed).increment % 2 = 1 ∧
    (PcgXsl64LcgRng.from_seed seed).increment % 2 = 1 ∧
    (MwpRng.from_seed seed).m % 2 = 1 := by
  refine ⟨?_, ?_, ?_⟩ <;>
    simp [PcgXsh64LcgRng.from_seed, PcgXsl64LcgRng.from_seed, MwpRng.from_seed,
      Nat.or_mod_two_eq_one]

/-- Claim C7: for the PCG XSH 64/32 engine seeded with first little-endian
64-bit word 0 (state) and second word 1 (increment), the first `next_u32` call
returns 0. -/
theorem pcg_xsh_64_32_golden_vector :
    ((PcgXsh64LcgRng.from_seed
        [0, 0, 0, 0, 0, 0, 0, 0, 1, 0, 0, 0, 0, 0, 0, 0]).next_u32).1 = 0 := by
  decide

/-- Claim C8: for any 64-bit-word engine step function `next` and any state,
filling an 8-byte buffer writes the little-endian encoding of one `next`
output; filling a 16-byte buffer writes two consecutive outputs concatenated;
and filling a buffer of fewer than 8 (but at least one) bytes writes only the
leading little-endian bytes of the single generated word. -/
theorem fill_bytes_via64_law {σ : Type} (next : σ → Nat × σ) (s : σ) :
    (fillBytesVia64 next s 8 = (leBytes (next s).1 8, (next s).2)) ∧
    (fillBytesVia64 next s 16 =
      (leBytes (next s).1 8 ++ leBytes (next (next s).2).1 8, (next (next s).2).2)) ∧
    (∀ k, 0 < k → k < 8 →
      fillBytesVia64 next s k = (List.take k (leBytes (next s).1 8), (next s).2)) := by
  refine ⟨?_, ?_, ?_⟩
  · rw [fillBytesVia64]
    norm_num
    rw [fillBytesVia64]
    norm_num
  · rw [fillBytesVia64]
    norm_num
    rw [fillBytesVia64]
    norm_num
    rw [fillBytesVia64]
    norm_num
  · intro k hk0 hk8
    rw [fillBytesVia64]
    rw [if_neg (by omega), if_neg (by omega)]
    rw [leBytes_take _ k 8 (by omega)]

theorem fill_bytes_via64_law_witness :
    fillBytesVia64 MswsRng.next_u64 ⟨2, 3, 5⟩ 3 =
      (List.take 3 (leBytes (MswsRng.next_u64 ⟨2, 3, 5⟩).1 8),
       (MswsRng.next_u64 ⟨2, 3, 5⟩).2) :=
  (fill_bytes_via64_law MswsRng.next_u64 ⟨2, 3, 5⟩).2.2 3 (by decide) (by decide)

/-- Claim C9: every reachable `MwpRng` state — constructed by `from_seed` from
any seed and advanced by any finite sequence of `next_u32` and `next_u64`
calls — has an odd `m` field: oddness is established at seed time and
preserved by every output call. -/
theorem mwp_reachable_m_odd (seed : List Nat) (cs : List MwpCall) :
    (MwpRng.runCalls cs (MwpRng.from_seed seed)).m % 2 = 1 := by
  have h0 : (MwpRng.from_seed seed).m % 2 = 1 := by
    simp [MwpRng.from_seed, Nat.or_mod_two_eq_one]
  generalize MwpRng.from_seed seed = g at h0
  induction cs generalizing g with
  | nil => simpa [MwpRng.runCalls] using h0
  | cons c cs ih =>
    simp only [MwpRng.runCalls, List.foldl_cons] at ih ⊢
    exact ih _ (mwp_m_odd_step c g h0)

/-- Claim C10: for the XSM32 engine, one `next_u64` call equals two sequential
`next_u32` calls packed low-word-then-high-word with the same successor state;
for the XSM64 engine, one `next_u32` call returns the low 32 bits of one
`next_u64` call with the same successor state. -/
theorem xsm_width_consistency :
    (∀ g : Xsm32Rng, Xsm32Rng.next_u64 g =
      (((Xsm32Rng.next_u32 (Xsm32Rng.next_u32 g).2).1 <<< 32) |||
         (Xsm32Rng.next_u32 g).1,
       (Xsm32Rng.next_u32 (Xsm32Rng.next_u32 g).2).2)) ∧
    (∀ g : Xsm64Rng, Xsm64Rng.next_u32 g =
      ((Xsm64Rng.next_u64 g).1 % 2 ^ 32, (Xsm64Rng.next_u64 g).2)) :=
  ⟨fun _ => rfl, fun _ => rfl⟩

end SmallRngs
